import Mathlib

set_option autoImplicit false

/-!
Shallow embedding of `src/wgpu-native/src/track.rs`: the resource-usage
hazard tracker.  Machinery modelled:

* `HandleId` — the generational handle (`Index`, `Epoch`), both `Nat`.
* `RefCount` — the opaque liveness token, modelled as a `Nat` tag; the
  tracker only clones and stores it.
* usage values are an abstract type `U` with decidable equality together
  with a `UsageOps U` record supplying bitwise OR and the exclusivity
  predicate (the `GenericUsage` trait bound `Copy + GenericUsage +
  BitOr + PartialEq`); `bitmaskOps` instantiates it the way
  `impl GenericUsage for BufferUsageFlags` does, with the external
  `WRITE_ALL` mask left as a parameter.
* the hash map `FastHashMap<Index, Track<U>>` is modelled as an
  association list `List (Nat × Track U)`; iteration order of
  `consume_by_replace` / `consume_by_extend` is the list order.
* a Rust panic (the `assert_eq!` on epochs, `unreachable!`) is modelled
  as `Option.none`; every operation that can assert returns an `Option`.
-/

namespace Wgpu

/-- Generational handle: slot index plus epoch (generation). -/
structure HandleId where
  index : Nat
  epoch : Nat
deriving DecidableEq, Repr

/-- Opaque liveness token; the tracker clones it into entries. -/
abbrev RefCount := Nat

/-- The `GenericUsage`/`BitOr` capability of a usage-flag type. -/
structure UsageOps (U : Type) where
  bor : U → U → U
  is_exclusive : U → Bool

/-- The concrete usage algebra of `BufferUsageFlags`/`TextureUsageFlags`:
a `Nat` bitmask, OR is bitwise or, and a usage is exclusive when it
intersects the (externally defined) `WRITE_ALL` mask. -/
def bitmaskOps (writeAll : Nat) : UsageOps Nat where
  bor := fun a b => a ||| b
  is_exclusive := fun u => decide (writeAll &&& u ≠ 0)

/-- `TrackPermit` bitflags: `EXTEND = 1`, `REPLACE = 2`. -/
structure TrackPermit where
  bits : Nat
deriving DecidableEq, Repr

def TrackPermit.EXTEND : TrackPermit := ⟨1⟩

def TrackPermit.REPLACE : TrackPermit := ⟨2⟩

/-- `bitflags`' `contains`: all bits of `q` are present in `p`. -/
def TrackPermit.contains (p q : TrackPermit) : Bool :=
  decide (p.bits &&& q.bits = q.bits)

/-- The transition outcome `Tracktion<T>`. -/
inductive Tracktion (U : Type) where
  | init
  | keep
  | extend (old : U)
  | replace (old : U)
deriving DecidableEq, Repr

/-- Result of `query`: the usage seen and whether this was first touch. -/
structure Query (U : Type) where
  usage : U
  initialized : Bool
deriving DecidableEq, Repr

/-- A tracked entry `Track<U>`. -/
structure Track (U : Type) where
  ref_count : RefCount
  init : U
  last : U
  epoch : Nat
deriving DecidableEq, Repr

/-- Association-list lookup, standing in for `HashMap` lookup. -/
def mapFind? {α : Type} : List (Nat × α) → Nat → Option α
  | [], _ => none
  | (j, v) :: rest, i => if j = i then some v else mapFind? rest i

/-- Association-list insert/overwrite, standing in for `HashMap` insert. -/
def mapInsert {α : Type} : List (Nat × α) → Nat → α → List (Nat × α)
  | [], i, v => [(i, v)]
  | (j, w) :: rest, i, v =>
    if j = i then (i, v) :: rest else (j, w) :: mapInsert rest i v

/-- Association-list removal, standing in for `HashMap::remove`. -/
def mapRemove {α : Type} : List (Nat × α) → Nat → List (Nat × α)
  | [], _ => []
  | (j, w) :: rest, i =>
    if j = i then mapRemove rest i else (j, w) :: mapRemove rest i

/-- `Tracker<I, U>`: map from slot index to tracked entry. -/
structure Tracker (U : Type) where
  map : List (Nat × Track U)
deriving DecidableEq

def Tracker.new (U : Type) : Tracker U := ⟨[]⟩

variable {U : Type} [DecidableEq U]

/-- `Tracker::remove`: erase the entry if present; the epoch `assert_eq!`
on a present entry is modelled as `none`. -/
def Tracker.remove (t : Tracker U) (id : HandleId) : Option (Bool × Tracker U) :=
  match mapFind? t.map id.index with
  | none => some (false, t)
  | some e =>
    if e.epoch = id.epoch then some (true, ⟨mapRemove t.map id.index⟩) else none

/-- `Tracker::query`: read the last usage, inserting `initial = last =
default` on first touch. -/
def Tracker.query (t : Tracker U) (id : HandleId) (rc : RefCount) (default : U) :
    Option (Query U × Tracker U) :=
  match mapFind? t.map id.index with
  | none =>
    some ({ usage := default, initialized := true },
      ⟨mapInsert t.map id.index
        { ref_count := rc, init := default, last := default, epoch := id.epoch }⟩)
  | some e =>
    if e.epoch = id.epoch then
      some ({ usage := e.last, initialized := false }, t)
    else none

/-- `Tracker::transit`: the central transition operation.  `Except.error
old` is the recoverable hazard; `none` is the fatal epoch assert. -/
def Tracker.transit (t : Tracker U) (ops : UsageOps U) (id : HandleId)
    (rc : RefCount) (usage : U) (permit : TrackPermit) :
    Option (Except U (Tracktion U) × Tracker U) :=
  match mapFind? t.map id.index with
  | none =>
    some (Except.ok Tracktion.init,
      ⟨mapInsert t.map id.index
        { ref_count := rc, init := usage, last := usage, epoch := id.epoch }⟩)
  | some e =>
    if e.epoch = id.epoch then
      if usage = e.last then
        some (Except.ok Tracktion.keep, t)
      else if permit.contains TrackPermit.EXTEND &&
          !(ops.is_exclusive (ops.bor e.last usage)) then
        some (Except.ok (Tracktion.extend e.last),
          ⟨mapInsert t.map id.index { e with last := ops.bor e.last usage }⟩)
      else if permit.contains TrackPermit.REPLACE then
        some (Except.ok (Tracktion.replace e.last),
          ⟨mapInsert t.map id.index { e with last := usage }⟩)
      else
        some (Except.error e.last, t)
    else none

/-- Worker for `Tracker::consume_by_replace`, folding `other`'s entries
(in iteration order) into `self`, collecting the emitted transitions. -/
def consumeByReplaceAux : List (Nat × Track U) → Tracker U →
    Option (List (HandleId × U × U) × Tracker U)
  | [], t => some ([], t)
  | (i, nw) :: rest, t =>
    match mapFind? t.map i with
    | none => consumeByReplaceAux rest ⟨mapInsert t.map i nw⟩
    | some e =>
      if e.epoch = nw.epoch then
        if e.last = nw.init then
          consumeByReplaceAux rest ⟨mapInsert t.map i { e with last := nw.last }⟩
        else
          (consumeByReplaceAux rest
              ⟨mapInsert t.map i { e with last := nw.last }⟩).map
            (fun p => ((⟨i, nw.epoch⟩, e.last, nw.last) :: p.1, p.2))
      else none

/-- `Tracker::consume_by_replace` with its returned iterator fully
consumed: yields the transition list and the mutated tracker. -/
def Tracker.consume_by_replace (t other : Tracker U) :
    Option (List (HandleId × U × U) × Tracker U) :=
  consumeByReplaceAux other.map t

/-- Worker for `Tracker::consume_by_extend`.  The first component is
`some hazard` when the call aborted; the tracker returned alongside
holds every mutation applied before the abort. -/
def consumeByExtendAux (ops : UsageOps U) : List (Nat × Track U) → Tracker U →
    Option (Option (HandleId × U × U) × Tracker U)
  | [], t => some (none, t)
  | (i, nw) :: rest, t =>
    match mapFind? t.map i with
    | none => consumeByExtendAux ops rest ⟨mapInsert t.map i nw⟩
    | some e =>
      if e.epoch = nw.epoch then
        if e.last = nw.last then
          consumeByExtendAux ops rest t
        else if ops.is_exclusive (ops.bor e.last nw.last) then
          some (some (⟨i, nw.epoch⟩, e.last, nw.last), t)
        else
          consumeByExtendAux ops rest
            ⟨mapInsert t.map i { e with last := ops.bor e.last nw.last }⟩
      else none

/-- `Tracker::consume_by_extend`. -/
def Tracker.consume_by_extend (ops : UsageOps U) (t other : Tracker U) :
    Option (Option (HandleId × U × U) × Tracker U) :=
  consumeByExtendAux ops other.map t

/-- `Tracker::used`: reconstruct a handle per tracked entry. -/
def Tracker.used (t : Tracker U) : List HandleId :=
  t.map.map (fun p => ⟨p.1, p.2.epoch⟩)

/-- `Tracker::get_with_replaced_usage`, with the external storage lookup
modelled as a total function from slot index to the resource (its
liveness token).  `none` covers both the epoch assert inside `transit`
and the `unreachable!` arm on `Tracktion::Extend`. -/
def Tracker.get_with_replaced_usage (t : Tracker U) (ops : UsageOps U)
    (st : Nat → RefCount) (id : HandleId) (usage : U) :
    Option (Except U (RefCount × Option U) × Tracker U) :=
  match t.transit ops id (st id.index) usage TrackPermit.REPLACE with
  | none => none
  | some (Except.error old, t') => some (Except.error old, t')
  | some (Except.ok tr, t') =>
    match tr with
    | Tracktion.init => some (Except.ok (st id.index, none), t')
    | Tracktion.keep => some (Except.ok (st id.index, none), t')
    | Tracktion.extend _ => none
    | Tracktion.replace old => some (Except.ok (st id.index, some old), t')

/-- `DummyTracker<I>`: presence tracker, entries are (liveness, epoch). -/
structure DummyTracker where
  map : List (Nat × (RefCount × Nat))
deriving DecidableEq, Repr

def DummyTracker.new : DummyTracker := ⟨[]⟩

/-- `DummyTracker::remove`. -/
def DummyTracker.remove (t : DummyTracker) (id : HandleId) :
    Option (Bool × DummyTracker) :=
  match mapFind? t.map id.index with
  | none => some (false, t)
  | some e =>
    if e.2 = id.epoch then some (true, ⟨mapRemove t.map id.index⟩) else none

/-- `DummyTracker::query`: true on first observation (inserting). -/
def DummyTracker.query (t : DummyTracker) (id : HandleId) (rc : RefCount) :
    Option (Bool × DummyTracker) :=
  match mapFind? t.map id.index with
  | none => some (true, ⟨mapInsert t.map id.index (rc, id.epoch)⟩)
  | some e => if e.2 = id.epoch then some (false, t) else none

/-- Worker for `DummyTracker::consume`: re-query every entry of `other`. -/
def dummyConsumeAux : List (Nat × (RefCount × Nat)) → DummyTracker →
    Option DummyTracker
  | [], t => some t
  | (i, rce) :: rest, t =>
    match t.query ⟨i, rce.2⟩ rce.1 with
    | none => none
    | some (_, t') => dummyConsumeAux rest t'

/-- `DummyTracker::consume`. -/
def DummyTracker.consume (t other : DummyTracker) : Option DummyTracker :=
  dummyConsumeAux other.map t

/-- A sequence of `transit` calls on one handle, collecting each call's
result; stops with `none` if any call hits the fatal epoch assert. -/
def transitSeq (ops : UsageOps U) (id : HandleId) (rc : RefCount)
    (permit : TrackPermit) : Tracker U → List U →
    Option (List (Except U (Tracktion U)) × Tracker U)
  | t, [] => some ([], t)
  | t, u :: us =>
    match t.transit ops id rc u permit with
    | none => none
    | some (r, t') =>
      (transitSeq ops id rc permit t' us).map (fun p => (r :: p.1, p.2))

/-! ## Association-list lemmas -/

theorem mapFind?_mapInsert_self {α : Type} (m : List (Nat × α)) (i : Nat) (v : α) :
    mapFind? (mapInsert m i v) i = some v := by
  induction m with
  | nil => simp [mapInsert, mapFind?]
  | cons hd tl ih =>
    obtain ⟨j, w⟩ := hd
    by_cases h : j = i <;> simp [mapInsert, mapFind?, h, ih]

theorem mapFind?_mapInsert_ne {α : Type} (m : List (Nat × α)) (i k : Nat) (v : α)
    (h : k ≠ i) : mapFind? (mapInsert m i v) k = mapFind? m k := by
  have hne : i ≠ k := fun h' => h h'.symm
  induction m with
  | nil => simp [mapInsert, mapFind?, hne]
  | cons hd tl ih =>
    obtain ⟨j, w⟩ := hd
    by_cases hj : j = i
    · subst hj
      simp [mapInsert, mapFind?, hne]
    · simp [mapInsert, mapFind?, hj, ih]

theorem mapFind?_mapRemove_self {α : Type} (m : List (Nat × α)) (i : Nat) :
    mapFind? (mapRemove m i) i = none := by
  induction m with
  | nil => simp [mapRemove, mapFind?]
  | cons hd tl ih =>
    obtain ⟨j, w⟩ := hd
    by_cases h : j = i <;> simp [mapRemove, mapFind?, h, ih]

/-! ## Claim theorems -/

/-- C1: on an existing entry with matching generation, `transit` returns
`Keep` and leaves the whole tracker unchanged when the requested usage
equals the entry's last usage (under ANY permit — equality is checked
before any merge policy); otherwise, if the permit allows `EXTEND` and
`old OR requested` is non-exclusive, it stores `old OR requested` as the
last usage and returns `Extend old`; otherwise, if the permit allows
`REPLACE`, it stores the requested usage and returns `Replace old`. -/
theorem transit_existing_entry_cases {U : Type} [DecidableEq U] (ops : UsageOps U)
    (t : Tracker U) (id : HandleId) (rc : RefCount) (usage : U)
    (permit : TrackPermit) (e : Track U)
    (hfind : mapFind? t.map id.index = some e) (hep : e.epoch = id.epoch) :
    (usage = e.last →
      t.transit ops id rc usage permit = some (Except.ok Tracktion.keep, t)) ∧
    (usage ≠ e.last → permit.contains TrackPermit.EXTEND = true →
      ops.is_exclusive (ops.bor e.last usage) = false →
      ∃ t', t.transit ops id rc usage permit
          = some (Except.ok (Tracktion.extend e.last), t') ∧
        mapFind? t'.map id.index = some { e with last := ops.bor e.last usage }) ∧
    (usage ≠ e.last →
      (permit.contains TrackPermit.EXTEND = false ∨
        ops.is_exclusive (ops.bor e.last usage) = true) →
      permit.contains TrackPermit.REPLACE = true →
      ∃ t', t.transit ops id rc usage permit
          = some (Except.ok (Tracktion.replace e.last), t') ∧
        mapFind? t'.map id.index = some { e with last := usage }) := by
  refine ⟨?_, ?_, ?_⟩
  · intro heq
    simp [Tracker.transit, hfind, hep, heq]
  · intro hne hx hnx
    refine ⟨⟨mapInsert t.map id.index { e with last := ops.bor e.last usage }⟩,
      ?_, mapFind?_mapInsert_self _ _ _⟩
    simp [Tracker.transit, hfind, hep, hne, hx, hnx]
  · intro hne hfail hr
    refine ⟨⟨mapInsert t.map id.index { e with last := usage }⟩,
      ?_, mapFind?_mapInsert_self _ _ _⟩
    rcases hfail with hx | hx <;>
      simp [Tracker.transit, hfind, hep, hne, hx, hr]

theorem transit_existing_entry_cases_witness :
    (Tracker.transit (U := Nat) ⟨[(0, ⟨7, 1, 1, 5⟩)]⟩ (bitmaskOps 4) ⟨0, 5⟩ 9 1 ⟨0⟩
      = some (Except.ok Tracktion.keep, ⟨[(0, ⟨7, 1, 1, 5⟩)]⟩)) ∧
    (∃ t', Tracker.transit (U := Nat) ⟨[(0, ⟨7, 1, 1, 5⟩)]⟩ (bitmaskOps 4)
        ⟨0, 5⟩ 9 2 TrackPermit.EXTEND
      = some (Except.ok (Tracktion.extend 1), t') ∧
      mapFind? t'.map 0 = some ⟨7, 1, 3, 5⟩) ∧
    (∃ t', Tracker.transit (U := Nat) ⟨[(0, ⟨7, 1, 1, 5⟩)]⟩ (bitmaskOps 4)
        ⟨0, 5⟩ 9 4 TrackPermit.REPLACE
      = some (Except.ok (Tracktion.replace 1), t') ∧
      mapFind? t'.map 0 = some ⟨7, 1, 4, 5⟩) := by
  refine ⟨?_, ?_, ?_⟩
  · exact (transit_existing_entry_cases (bitmaskOps 4) ⟨[(0, ⟨7, 1, 1, 5⟩)]⟩
      ⟨0, 5⟩ 9 1 ⟨0⟩ ⟨7, 1, 1, 5⟩ (by decide) (by decide)).1 rfl
  · exact (transit_existing_entry_cases (bitmaskOps 4) ⟨[(0, ⟨7, 1, 1, 5⟩)]⟩
      ⟨0, 5⟩ 9 2 TrackPermit.EXTEND ⟨7, 1, 1, 5⟩ (by decide) (by decide)).2.1
      (by decide) (by decide) (by decide)
  · exact (transit_existing_entry_cases (bitmaskOps 4) ⟨[(0, ⟨7, 1, 1, 5⟩)]⟩
      ⟨0, 5⟩ 9 4 TrackPermit.REPLACE ⟨7, 1, 1, 5⟩ (by decide) (by decide)).2.2
      (by decide) (Or.inl (by decide)) (by decide)

/-- C5: on an existing entry with matching generation, when the
requested usage differs from the last usage, the permit does not allow
`REPLACE`, and the `EXTEND` path is unavailable (not permitted, or the
OR-union is exclusive), `transit` returns the recoverable hazard
`Except.error old` carrying the prior last usage, and the returned
tracker is exactly the input tracker — no entry is modified. -/
theorem transit_hazard_leaves_state {U : Type} [DecidableEq U] (ops : UsageOps U)
    (t : Tracker U) (id : HandleId) (rc : RefCount) (usage : U)
    (permit : TrackPermit) (e : Track U)
    (hfind : mapFind? t.map id.index = some e) (hep : e.epoch = id.epoch)
    (hne : usage ≠ e.last)
    (hrep : permit.contains TrackPermit.REPLACE = false)
    (hfail : permit.contains TrackPermit.EXTEND = false ∨
      ops.is_exclusive (ops.bor e.last usage) = true) :
    t.transit ops id rc usage permit = some (Except.error e.last, t) := by
  rcases hfail with hx | hx <;>
    simp [Tracker.transit, hfind, hep, hne, hrep, hx]

theorem transit_hazard_leaves_state_witness :
    Tracker.transit (U := Nat) ⟨[(0, ⟨7, 1, 1, 5⟩)]⟩ (bitmaskOps 4) ⟨0, 5⟩ 9 4
      TrackPermit.EXTEND
      = some (Except.error 1, ⟨[(0, ⟨7, 1, 1, 5⟩)]⟩) :=
  transit_hazard_leaves_state (bitmaskOps 4) ⟨[(0, ⟨7, 1, 1, 5⟩)]⟩ ⟨0, 5⟩ 9 4
    TrackPermit.EXTEND ⟨7, 1, 1, 5⟩ (by decide) (by decide) (by decide)
    (by decide) (Or.inr (by decide))

/-- C8: `query` on an untracked slot inserts an entry with
`initial = last = default` and the handle's generation, and reports
first touch; an immediately following `query` (any liveness token, any
default) returns the same usage with first touch false and leaves the
tracker untouched. -/
theorem query_first_touch {U : Type} [DecidableEq U] (t : Tracker U)
    (id : HandleId) (rc : RefCount) (d : U)
    (hfind : mapFind? t.map id.index = none) :
    ∃ t1, t.query id rc d = some ({ usage := d, initialized := true }, t1) ∧
      mapFind? t1.map id.index
        = some { ref_count := rc, init := d, last := d, epoch := id.epoch } ∧
      ∀ rc' d', t1.query id rc' d' = some ({ usage := d, initialized := false }, t1) := by
  refine ⟨⟨mapInsert t.map id.index
      { ref_count := rc, init := d, last := d, epoch := id.epoch }⟩,
    ?_, mapFind?_mapInsert_self _ _ _, ?_⟩
  · simp [Tracker.query, hfind]
  · intro rc' d'
    simp [Tracker.query, mapFind?_mapInsert_self]

theorem query_first_touch_witness :
    ∃ t1, Tracker.query (U := Nat) ⟨[]⟩ ⟨3, 2⟩ 11 8
        = some ({ usage := 8, initialized := true }, t1) ∧
      mapFind? t1.map 3 = some { ref_count := 11, init := 8, last := 8, epoch := 2 } ∧
      ∀ rc' d', t1.query ⟨3, 2⟩ rc' d' = some ({ usage := 8, initialized := false }, t1) :=
  query_first_touch ⟨[]⟩ ⟨3, 2⟩ 11 8 (by decide)

/-- C9: `remove` on an untracked slot returns `false` and changes
nothing; on a tracked slot with matching generation it returns `true`
and erases the entry, after which `query` reports first touch again. -/
theorem remove_spec {U : Type} [DecidableEq U] (t : Tracker U) (id : HandleId) :
    (mapFind? t.map id.index = none → t.remove id = some (false, t)) ∧
    (∀ e, mapFind? t.map id.index = some e → e.epoch = id.epoch →
      ∃ t', t.remove id = some (true, t') ∧
        mapFind? t'.map id.index = none ∧
        ∀ rc d, ∃ t2,
          t'.query id rc d = some ({ usage := d, initialized := true }, t2)) := by
  constructor
  · intro hfind
    simp [Tracker.remove, hfind]
  · intro e hfind hep
    refine ⟨⟨mapRemove t.map id.index⟩, ?_, mapFind?_mapRemove_self _ _, ?_⟩
    · simp [Tracker.remove, hfind, hep]
    · intro rc d
      refine ⟨⟨mapInsert (mapRemove t.map id.index) id.index
        { ref_count := rc, init := d, last := d, epoch := id.epoch }⟩, ?_⟩
      simp [Tracker.query, mapFind?_mapRemove_self]

theorem remove_spec_witness :
    (Tracker.remove (U := Nat) ⟨[]⟩ ⟨0, 0⟩ = some (false, ⟨[]⟩)) ∧
    (∃ t', Tracker.remove (U := Nat) ⟨[(2, ⟨5, 1, 3, 4⟩)]⟩ ⟨2, 4⟩ = some (true, t') ∧
      mapFind? t'.map 2 = none ∧
      ∀ rc d, ∃ t2,
        t'.query ⟨2, 4⟩ rc d = some ({ usage := d, initialized := true }, t2)) :=
  ⟨(remove_spec (U := Nat) ⟨[]⟩ ⟨0, 0⟩).1 (by decide),
   (remove_spec (U := Nat) ⟨[(2, ⟨5, 1, 3, 4⟩)]⟩ ⟨2, 4⟩).2 ⟨5, 1, 3, 4⟩
     (by decide) (by decide)⟩

/-- C6: every operation that reaches an existing entry whose stored
generation differs from the handle's generation is fatal (`none`, the
model of the Rust `assert_eq!` panic): `query`, `transit`, `remove`,
`consume_by_replace`, `consume_by_extend` on the resource tracker, and
`query`, `remove`, `consume` on the presence tracker.  No operation
returns a recoverable value on a mismatch. -/
theorem generation_mismatch_fatal {U : Type} [DecidableEq U] :
    (∀ (t : Tracker U) (id : HandleId) (rc : RefCount) (d : U) (e : Track U),
      mapFind? t.map id.index = some e → e.epoch ≠ id.epoch →
      t.query id rc d = none) ∧
    (∀ (ops : UsageOps U) (t : Tracker U) (id : HandleId) (rc : RefCount)
      (usage : U) (permit : TrackPermit) (e : Track U),
      mapFind? t.map id.index = some e → e.epoch ≠ id.epoch →
      t.transit ops id rc usage permit = none) ∧
    (∀ (t : Tracker U) (id : HandleId) (e : Track U),
      mapFind? t.map id.index = some e → e.epoch ≠ id.epoch →
      t.remove id = none) ∧
    (∀ (t : Tracker U) (i : Nat) (nw : Track U) (rest : List (Nat × Track U))
      (e : Track U),
      mapFind? t.map i = some e → e.epoch ≠ nw.epoch →
      t.consume_by_replace ⟨(i, nw) :: rest⟩ = none) ∧
    (∀ (ops : UsageOps U) (t : Tracker U) (i : Nat) (nw : Track U)
      (rest : List (Nat × Track U)) (e : Track U),
      mapFind? t.map i = some e → e.epoch ≠ nw.epoch →
      Tracker.consume_by_extend ops t ⟨(i, nw) :: rest⟩ = none) ∧
    (∀ (t : DummyTracker) (id : HandleId) (rc : RefCount) (e : RefCount × Nat),
      mapFind? t.map id.index = some e → e.2 ≠ id.epoch →
      t.query id rc = none) ∧
    (∀ (t : DummyTracker) (id : HandleId) (e : RefCount × Nat),
      mapFind? t.map id.index = some e → e.2 ≠ id.epoch →
      t.remove id = none) ∧
    (∀ (t : DummyTracker) (i : Nat) (rce : RefCount × Nat)
      (rest : List (Nat × (RefCount × Nat))) (e : RefCount × Nat),
      mapFind? t.map i = some e → e.2 ≠ rce.2 →
      t.consume ⟨(i, rce) :: rest⟩ = none) := by
  refine ⟨?_, ?_, ?_, ?_, ?_, ?_, ?_, ?_⟩
  · intro t id rc d e hfind hep
    simp [Tracker.query, hfind, hep]
  · intro ops t id rc usage permit e hfind hep
    simp [Tracker.transit, hfind, hep]
  · intro t id e hfind hep
    simp [Tracker.remove, hfind, hep]
  · intro t i nw rest e hfind hep
    simp [Tracker.consume_by_replace, consumeByReplaceAux, hfind, hep]
  · intro ops t i nw rest e hfind hep
    simp [Tracker.consume_by_extend, consumeByExtendAux, hfind, hep]
  · intro t id rc e hfind hep
    simp [DummyTracker.query, hfind, hep]
  · intro t id e hfind hep
    simp [DummyTracker.remove, hfind, hep]
  · intro t i rce rest e hfind hep
    simp [DummyTracker.consume, dummyConsumeAux, DummyTracker.query, hfind, hep]

theorem generation_mismatch_fatal_witness :
    (Tracker.query (U := Nat) ⟨[(0, ⟨7, 1, 1, 5⟩)]⟩ ⟨0, 6⟩ 9 2 = none) ∧
    (Tracker.transit (U := Nat) ⟨[(0, ⟨7, 1, 1, 5⟩)]⟩ (bitmaskOps 4) ⟨0, 6⟩ 9 2
      TrackPermit.REPLACE = none) ∧
    (Tracker.remove (U := Nat) ⟨[(0, ⟨7, 1, 1, 5⟩)]⟩ ⟨0, 6⟩ = none) ∧
    (Tracker.consume_by_replace (U := Nat) ⟨[(0, ⟨7, 1, 1, 5⟩)]⟩
      ⟨[(0, ⟨8, 2, 2, 6⟩)]⟩ = none) ∧
    (Tracker.consume_by_extend (U := Nat) (bitmaskOps 4) ⟨[(0, ⟨7, 1, 1, 5⟩)]⟩
      ⟨[(0, ⟨8, 2, 2, 6⟩)]⟩ = none) ∧
    (DummyTracker.query ⟨[(0, (7, 5))]⟩ ⟨0, 6⟩ 9 = none) ∧
    (DummyTracker.remove ⟨[(0, (7, 5))]⟩ ⟨0, 6⟩ = none) ∧
    (DummyTracker.consume ⟨[(0, (7, 5))]⟩ ⟨[(0, (8, 6))]⟩ = none) := by
  obtain ⟨h1, h2, h3, h4, h5, h6, h7, h8⟩ := generation_mismatch_fatal (U := Nat)
  exact ⟨h1 ⟨[(0, ⟨7, 1, 1, 5⟩)]⟩ ⟨0, 6⟩ 9 2 ⟨7, 1, 1, 5⟩ (by decide) (by decide),
    h2 (bitmaskOps 4) ⟨[(0, ⟨7, 1, 1, 5⟩)]⟩ ⟨0, 6⟩ 9 2 TrackPermit.REPLACE
      ⟨7, 1, 1, 5⟩ (by decide) (by decide),
    h3 ⟨[(0, ⟨7, 1, 1, 5⟩)]⟩ ⟨0, 6⟩ ⟨7, 1, 1, 5⟩ (by decide) (by decide),
    h4 ⟨[(0, ⟨7, 1, 1, 5⟩)]⟩ 0 ⟨8, 2, 2, 6⟩ [] ⟨7, 1, 1, 5⟩ (by decide) (by decide),
    h5 (bitmaskOps 4) ⟨[(0, ⟨7, 1, 1, 5⟩)]⟩ 0 ⟨8, 2, 2, 6⟩ [] ⟨7, 1, 1, 5⟩
      (by decide) (by decide),
    h6 ⟨[(0, (7, 5))]⟩ ⟨0, 6⟩ 9 (7, 5) (by decide) (by decide),
    h7 ⟨[(0, (7, 5))]⟩ ⟨0, 6⟩ (7, 5) (by decide) (by decide),
    h8 ⟨[(0, (7, 5))]⟩ 0 (8, 6) [] (7, 5) (by decide) (by decide)⟩

theorem replace_contains_extend_false :
    TrackPermit.REPLACE.contains TrackPermit.EXTEND = false := by decide

theorem replace_contains_replace_true :
    TrackPermit.REPLACE.contains TrackPermit.REPLACE = true := by decide

/-- C10: `transit` under the `REPLACE`-only permit can only produce the
fatal assert, `Init`, `Keep`, or `Replace` — never `Extend` and never a
hazard; consequently `get_with_replaced_usage` hits its `unreachable!`
arm for no input: it returns `none` exactly when `transit` itself does
(the epoch assert). -/
theorem replace_permit_never_extend {U : Type} [DecidableEq U] (ops : UsageOps U)
    (t : Tracker U) (id : HandleId) (rc : RefCount) (usage : U) :
    (t.transit ops id rc usage TrackPermit.REPLACE = none ∨
      (∃ t', t.transit ops id rc usage TrackPermit.REPLACE
        = some (Except.ok Tracktion.init, t')) ∨
      (∃ t', t.transit ops id rc usage TrackPermit.REPLACE
        = some (Except.ok Tracktion.keep, t')) ∨
      (∃ o t', t.transit ops id rc usage TrackPermit.REPLACE
        = some (Except.ok (Tracktion.replace o), t'))) ∧
    (∀ st : Nat → RefCount,
      t.get_with_replaced_usage ops st id usage = none ↔
        t.transit ops id (st id.index) usage TrackPermit.REPLACE = none) := by
  have key : ∀ rc' : RefCount,
      t.transit ops id rc' usage TrackPermit.REPLACE = none ∨
      (∃ t', t.transit ops id rc' usage TrackPermit.REPLACE
        = some (Except.ok Tracktion.init, t')) ∨
      (∃ t', t.transit ops id rc' usage TrackPermit.REPLACE
        = some (Except.ok Tracktion.keep, t')) ∨
      (∃ o t', t.transit ops id rc' usage TrackPermit.REPLACE
        = some (Except.ok (Tracktion.replace o), t')) := by
    intro rc'
    rcases hf : mapFind? t.map id.index with _ | e
    · exact Or.inr (Or.inl ⟨⟨mapInsert t.map id.index
        { ref_count := rc', init := usage, last := usage, epoch := id.epoch }⟩,
        by simp [Tracker.transit, hf]⟩)
    · by_cases hep : e.epoch = id.epoch
      · by_cases heq : usage = e.last
        · exact Or.inr (Or.inr (Or.inl ⟨t, by simp [Tracker.transit, hf, hep, heq]⟩))
        · refine Or.inr (Or.inr (Or.inr ⟨e.last,
            ⟨mapInsert t.map id.index { e with last := usage }⟩, ?_⟩))
          simp [Tracker.transit, hf, hep, heq,
            replace_contains_extend_false, replace_contains_replace_true]
      · exact Or.inl (by simp [Tracker.transit, hf, hep])
  refine ⟨key rc, ?_⟩
  intro st
  rcases key (st id.index) with h | ⟨t', h⟩ | ⟨t', h⟩ | ⟨o, t', h⟩ <;>
    simp [Tracker.get_with_replaced_usage, h]

/-- A committed `consume_by_extend` merge step only ever changes an
entry's last usage to a value whose exclusivity check passed: any entry
whose last usage changed across the call ends up non-exclusive. -/
theorem consumeByExtendAux_last_invariant {U : Type} [DecidableEq U]
    (ops : UsageOps U) (l : List (Nat × Track U)) :
    ∀ (t : Tracker U) (hz : Option (HandleId × U × U)) (t' : Tracker U)
      (i : Nat) (e e' : Track U),
      consumeByExtendAux ops l t = some (hz, t') →
      mapFind? t.map i = some e → mapFind? t'.map i = some e' →
      e'.last = e.last ∨ ops.is_exclusive e'.last = false := by
  induction l with
  | nil =>
    intro t hz t' i e e' hrun hfind hfind'
    have hrun' : (some (none, t) : Option (Option (HandleId × U × U) × Tracker U))
        = some (hz, t') := hrun
    have ht : t' = t := (congrArg Prod.snd (Option.some.inj hrun')).symm
    subst ht
    rw [hfind] at hfind'
    injection hfind' with h
    exact Or.inl (by rw [← h])
  | cons hd rest ih =>
    intro t hz t' i e e' hrun hfind hfind'
    obtain ⟨j, nw⟩ := hd
    simp only [consumeByExtendAux] at hrun
    split at hrun
    · rename_i hf
      have hij : i ≠ j := by
        intro h; rw [h, hf] at hfind; exact Option.noConfusion hfind
      exact ih ⟨mapInsert t.map j nw⟩ hz t' i e e' hrun
        (by rw [mapFind?_mapInsert_ne _ _ _ _ hij]; exact hfind) hfind'
    · rename_i ej hf
      by_cases hep : ej.epoch = nw.epoch
      · rw [if_pos hep] at hrun
        by_cases heq2 : ej.last = nw.last
        · rw [if_pos heq2] at hrun
          exact ih t hz t' i e e' hrun hfind hfind'
        · rw [if_neg heq2] at hrun
          by_cases hx : ops.is_exclusive (ops.bor ej.last nw.last) = true
          · rw [if_pos hx] at hrun
            have ht : t' = t := (congrArg Prod.snd (Option.some.inj hrun)).symm
            subst ht
            rw [hfind] at hfind'
            injection hfind' with h
            exact Or.inl (by rw [← h])
          · rw [if_neg hx] at hrun
            have hxf : ops.is_exclusive (ops.bor ej.last nw.last) = false := by
              simpa using hx
            by_cases hij : i = j
            · subst hij
              rw [hfind] at hf
              injection hf with hf
              subst hf
              rcases ih ⟨mapInsert t.map i { e with last := ops.bor e.last nw.last }⟩
                  hz t' i { e with last := ops.bor e.last nw.last } e' hrun
                  (mapFind?_mapInsert_self _ _ _) hfind' with h | h
              · exact Or.inr (by rw [h]; exact hxf)
              · exact Or.inr h
            · exact ih ⟨mapInsert t.map j { ej with last := ops.bor ej.last nw.last }⟩
                hz t' i e e' hrun
                (by rw [mapFind?_mapInsert_ne _ _ _ _ hij]; exact hfind) hfind'
      · rw [if_neg hep] at hrun
        exact Option.noConfusion hrun

/-- C7: an extend merge never stores an exclusive union.  When `transit`
returns the `Extend` outcome, the entry now stored for the handle has a
non-exclusive last usage, and any entry whose last usage was changed by
a `consume_by_extend` call (a committed merge) holds a non-exclusive
last usage — the exclusive case refuses with a hazard instead of
storing. -/
theorem extend_stores_nonexclusive {U : Type} [DecidableEq U] :
    (∀ (ops : UsageOps U) (t : Tracker U) (id : HandleId) (rc : RefCount)
      (usage : U) (permit : TrackPermit) (old : U) (t' : Tracker U),
      t.transit ops id rc usage permit
          = some (Except.ok (Tracktion.extend old), t') →
      ∃ e', mapFind? t'.map id.index = some e' ∧
        ops.is_exclusive e'.last = false) ∧
    (∀ (ops : UsageOps U) (t other : Tracker U)
      (hz : Option (HandleId × U × U)) (t' : Tracker U) (i : Nat)
      (e e' : Track U),
      Tracker.consume_by_extend ops t other = some (hz, t') →
      mapFind? t.map i = some e → mapFind? t'.map i = some e' →
      e'.last ≠ e.last → ops.is_exclusive e'.last = false) := by
  constructor
  · intro ops t id rc usage permit old t' h
    rcases hf : mapFind? t.map id.index with _ | e
    · simp [Tracker.transit, hf] at h
    · by_cases hep : e.epoch = id.epoch
      · by_cases heq : usage = e.last
        · simp [Tracker.transit, hf, hep, heq] at h
        · by_cases hcond : (permit.contains TrackPermit.EXTEND &&
              !ops.is_exclusive (ops.bor e.last usage)) = true
          · have hx : ops.is_exclusive (ops.bor e.last usage) = false := by
              have hc2 := (Bool.and_eq_true _ _).mp hcond
              simpa using hc2.2
            have hstep : t.transit ops id rc usage permit
                = some (Except.ok (Tracktion.extend e.last),
                    ⟨mapInsert t.map id.index { e with last := ops.bor e.last usage }⟩) := by
              simp [Tracker.transit, hf, hep, heq, hcond]
            rw [hstep] at h
            injection h with h
            have ht : t' = ⟨mapInsert t.map id.index
                { e with last := ops.bor e.last usage }⟩ :=
              (congrArg Prod.snd h).symm
            subst ht
            exact ⟨_, mapFind?_mapInsert_self _ _ _, hx⟩
          · by_cases hrep : permit.contains TrackPermit.REPLACE = true
            · simp [Tracker.transit, hf, hep, heq, hcond, hrep] at h
            · simp [Tracker.transit, hf, hep, heq, hcond, hrep] at h
      · simp [Tracker.transit, hf, hep] at h
  · intro ops t other hz t' i e e' hrun hfind hfind' hne
    rcases consumeByExtendAux_last_invariant ops other.map t hz t' i e e' hrun
        hfind hfind' with h | h
    · exact absurd h hne
    · exact h

theorem extend_stores_nonexclusive_witness :
    (∃ e', mapFind? (Tracker.mk (U := Nat) [(0, ⟨7, 1, 3, 5⟩)]).map 0 = some e' ∧
      (bitmaskOps 4).is_exclusive e'.last = false) ∧
    ((bitmaskOps 4).is_exclusive (⟨7, 1, 3, 5⟩ : Track Nat).last = false) :=
  ⟨(extend_stores_nonexclusive (U := Nat)).1 (bitmaskOps 4)
      ⟨[(0, ⟨7, 1, 1, 5⟩)]⟩ ⟨0, 5⟩ 9 2 TrackPermit.EXTEND 1
      ⟨[(0, ⟨7, 1, 3, 5⟩)]⟩ rfl,
   (extend_stores_nonexclusive (U := Nat)).2 (bitmaskOps 4)
      ⟨[(0, ⟨7, 1, 1, 5⟩)]⟩ ⟨[(0, ⟨8, 1, 2, 5⟩)]⟩ none
      ⟨[(0, ⟨7, 1, 3, 5⟩)]⟩ 0 ⟨7, 1, 1, 5⟩ ⟨7, 1, 3, 5⟩
      (by decide) (by decide) (by decide) (by decide)⟩

/-- Bitwise OR on `Nat` is idempotent. -/
theorem lor_self_eq (n : Nat) : n ||| n = n := by
  apply Nat.eq_of_testBit_eq
  intro i
  simp [Nat.testBit_lor]

/-- Bits absent from `W` in both operands stay absent in their OR. -/
theorem land_lor_eq_zero {W a b : Nat} (ha : W &&& a = 0) (hb : W &&& b = 0) :
    W &&& (a ||| b) = 0 := by
  apply Nat.eq_of_testBit_eq
  intro i
  have ha' := congrArg (fun n => Nat.testBit n i) ha
  have hb' := congrArg (fun n => Nat.testBit n i) hb
  simp only [Nat.testBit_land, Nat.testBit_lor, Nat.zero_testBit] at ha' hb' ⊢
  cases hW : Nat.testBit W i
  · simp [hW]
  · rw [hW] at ha' hb'
    simp only [Bool.true_and] at ha' hb'
    simp [hW, ha', hb']

/-- Under the extend-only permit and a bitmask usage algebra, a sequence
of `transit` calls whose usages avoid the write mask all succeed and
accumulate the bitwise OR into the entry's last usage. -/
theorem transitSeq_extend_accumulates (W : Nat) (id : HandleId) (rc : RefCount)
    (us : List Nat) :
    ∀ (t : Tracker Nat) (e : Track Nat),
      mapFind? t.map id.index = some e → e.epoch = id.epoch →
      W &&& e.last = 0 → (∀ u ∈ us, W &&& u = 0) →
      ∃ rs t', transitSeq (bitmaskOps W) id rc TrackPermit.EXTEND t us
          = some (rs, t') ∧
        (∀ r ∈ rs, ∃ tr, r = Except.ok tr) ∧
        ∃ e', mapFind? t'.map id.index = some e' ∧ e'.epoch = id.epoch ∧
          e'.last = us.foldl (fun a b => a ||| b) e.last := by
  induction us with
  | nil =>
    intro t e hfind hep hw _
    exact ⟨[], t, rfl, by simp, e, hfind, hep, by simp⟩
  | cons u us ih =>
    intro t e hfind hep hw hus
    by_cases heq : u = e.last
    · have hstep : t.transit (bitmaskOps W) id rc u TrackPermit.EXTEND
          = some (Except.ok Tracktion.keep, t) := by
        simp [Tracker.transit, hfind, hep, heq]
      obtain ⟨rs, t', hrun, hok, e', hf', hep', hl'⟩ :=
        ih t e hfind hep hw (fun v hv => hus v (List.mem_cons_of_mem _ hv))
      refine ⟨Except.ok Tracktion.keep :: rs, t', ?_, ?_, e', hf', hep', ?_⟩
      · simp [transitSeq, hstep, hrun]
      · intro r hr
        rcases List.mem_cons.mp hr with rfl | hr
        · exact ⟨_, rfl⟩
        · exact hok r hr
      · rw [hl']
        have hself : e.last ||| u = e.last := by rw [heq, lor_self_eq]
        simp [List.foldl, hself]
    · have hu0 : W &&& u = 0 := hus u (List.mem_cons_self _ _)
      have hmerge : W &&& (e.last ||| u) = 0 := land_lor_eq_zero hw hu0
      have hstep : t.transit (bitmaskOps W) id rc u TrackPermit.EXTEND
          = some (Except.ok (Tracktion.extend e.last),
              ⟨mapInsert t.map id.index { e with last := e.last ||| u }⟩) := by
        simp [Tracker.transit, hfind, hep, heq, bitmaskOps, hmerge,
          TrackPermit.contains]
      obtain ⟨rs, t', hrun, hok, e', hf', hep', hl'⟩ :=
        ih ⟨mapInsert t.map id.index { e with last := e.last ||| u }⟩
          { e with last := e.last ||| u } (mapFind?_mapInsert_self _ _ _) hep
          hmerge (fun v hv => hus v (List.mem_cons_of_mem _ hv))
      refine ⟨Except.ok (Tracktion.extend e.last) :: rs, t', ?_, ?_,
        e', hf', hep', ?_⟩
      · simp [transitSeq, hstep, hrun]
      · intro r hr
        rcases List.mem_cons.mp hr with rfl | hr
        · exact ⟨_, rfl⟩
        · exact hok r hr
      · rw [hl']
        simp [List.foldl]

/-- C4: starting from an untracked slot, a finite sequence of `transit`
calls on one handle under the extend-only permit whose requested usages
have pairwise non-exclusive ORs never returns a hazard (every call
yields `Ok`), and afterwards the entry's last usage equals the bitwise
OR of all requested usages. -/
theorem transit_extend_seq_or (W : Nat) (t : Tracker Nat) (id : HandleId)
    (rc : RefCount) (u0 : Nat) (us : List Nat)
    (hfind : mapFind? t.map id.index = none)
    (hpair : ∀ u ∈ u0 :: us, ∀ v ∈ u0 :: us,
      (bitmaskOps W).is_exclusive ((bitmaskOps W).bor u v) = false) :
    ∃ rs t', transitSeq (bitmaskOps W) id rc TrackPermit.EXTEND t (u0 :: us)
        = some (rs, t') ∧
      (∀ r ∈ rs, ∃ tr, r = Except.ok tr) ∧
      ∃ e', mapFind? t'.map id.index = some e' ∧
        e'.last = us.foldl (fun a b => a ||| b) u0 := by
  have hz : ∀ u ∈ u0 :: us, W &&& u = 0 := by
    intro u hu
    have h := hpair u hu u hu
    simpa [bitmaskOps, lor_self_eq] using h
  have hstep : t.transit (bitmaskOps W) id rc u0 TrackPermit.EXTEND
      = some (Except.ok Tracktion.init,
          ⟨mapInsert t.map id.index
            { ref_count := rc, init := u0, last := u0, epoch := id.epoch }⟩) := by
    simp [Tracker.transit, hfind]
  obtain ⟨rs, t', hrun, hok, e', hf', hep', hl'⟩ :=
    transitSeq_extend_accumulates W id rc us
      ⟨mapInsert t.map id.index
        { ref_count := rc, init := u0, last := u0, epoch := id.epoch }⟩
      { ref_count := rc, init := u0, last := u0, epoch := id.epoch }
      (mapFind?_mapInsert_self _ _ _) rfl (hz u0 (List.mem_cons_self _ _))
      (fun v hv => hz v (List.mem_cons_of_mem _ hv))
  refine ⟨Except.ok Tracktion.init :: rs, t', ?_, ?_, e', hf', hl'⟩
  · simp [transitSeq, hstep, hrun]
  · intro r hr
    rcases List.mem_cons.mp hr with rfl | hr
    · exact ⟨_, rfl⟩
    · exact hok r hr

theorem transit_extend_seq_or_witness :
    (∀ u ∈ [1, 2, 1], ∀ v ∈ [1, 2, 1],
      (bitmaskOps 4).is_exclusive ((bitmaskOps 4).bor u v) = false) ∧
    ∃ rs t', transitSeq (bitmaskOps 4) ⟨1, 2⟩ 9 TrackPermit.EXTEND ⟨[]⟩ [1, 2, 1]
        = some (rs, t') ∧
      (∀ r ∈ rs, ∃ tr, r = Except.ok tr) ∧
      ∃ e', mapFind? t'.map 1 = some e' ∧
        e'.last = [2, 1].foldl (fun a b => a ||| b) 1 :=
  ⟨by decide, transit_extend_seq_or 4 ⟨[]⟩ ⟨1, 2⟩ 9 1 [2, 1] (by decide) (by decide)⟩

/-- A key not among an association list's keys is not found. -/
theorem mapFind?_eq_none_of_not_mem {α : Type} (l : List (Nat × α)) (j : Nat)
    (h : j ∉ l.map Prod.fst) : mapFind? l j = none := by
  induction l with
  | nil => rfl
  | cons hd tl ih =>
    obtain ⟨k, v⟩ := hd
    simp only [List.map_cons, List.mem_cons, not_or] at h
    have hkj : k ≠ j := fun hh => h.1 hh.symm
    simp [mapFind?, hkj, ih h.2]

/-- Extensional description of `consumeByReplaceAux`: under distinct
keys and matching epochs the fold succeeds with no panic; the resulting
map and the emitted transition list are determined pointwise by the two
initial maps. -/
theorem consumeByReplaceAux_spec {U : Type} [DecidableEq U]
    (l : List (Nat × Track U)) :
    ∀ t : Tracker U,
      (l.map Prod.fst).Nodup →
      (∀ i nw e, (i, nw) ∈ l → mapFind? t.map i = some e → e.epoch = nw.epoch) →
      ∃ ts t', consumeByReplaceAux l t = some (ts, t') ∧
        (∀ i, mapFind? l i = none → mapFind? t'.map i = mapFind? t.map i) ∧
        (∀ i nw, mapFind? l i = some nw → mapFind? t.map i = none →
          mapFind? t'.map i = some nw) ∧
        (∀ i nw e, mapFind? l i = some nw → mapFind? t.map i = some e →
          mapFind? t'.map i = some { e with last := nw.last }) ∧
        ts = l.filterMap (fun p =>
          match mapFind? t.map p.1 with
          | none => none
          | some e =>
            if e.last = p.2.init then none
            else some ((⟨p.1, p.2.epoch⟩ : HandleId), (e.last, p.2.last))) := by
  induction l with
  | nil =>
    intro t _ _
    refine ⟨[], t, rfl, fun i _ => rfl, ?_, ?_, rfl⟩
    · intro i nw h
      exact absurd h (by simp [mapFind?])
    · intro i nw e h
      exact absurd h (by simp [mapFind?])
  | cons hd rest ih =>
    intro t hnd hep
    obtain ⟨j, nw⟩ := hd
    have hnd2 : (j :: rest.map Prod.fst).Nodup := by
      simpa only [List.map_cons] using hnd
    have hjr : j ∉ rest.map Prod.fst := (List.nodup_cons.mp hnd2).1
    have hndr : (rest.map Prod.fst).Nodup := (List.nodup_cons.mp hnd2).2
    rcases hf : mapFind? t.map j with _ | e
    · -- vacant in self: clone the entry, no transition
      have hep1 : ∀ i nwi e0, (i, nwi) ∈ rest →
          mapFind? (Tracker.mk (mapInsert t.map j nw)).map i = some e0 →
          e0.epoch = nwi.epoch := by
        intro i nwi e0 hmem hfind
        have hij : i ≠ j := by
          intro h
          exact hjr (h ▸ List.mem_map_of_mem Prod.fst hmem)
        have hfind2 : mapFind? (mapInsert t.map j nw) i = some e0 := hfind
        rw [mapFind?_mapInsert_ne _ _ _ _ hij] at hfind2
        exact hep i nwi e0 (List.mem_cons_of_mem _ hmem) hfind2
      obtain ⟨ts, t', hrun, hA, hB, hC, hts⟩ :=
        ih ⟨mapInsert t.map j nw⟩ hndr hep1
      have hcong : rest.filterMap (fun p =>
            match mapFind? (Tracker.mk (mapInsert t.map j nw)).map p.1 with
            | none => none
            | some e0 =>
              if e0.last = p.2.init then none
              else some ((⟨p.1, p.2.epoch⟩ : HandleId), (e0.last, p.2.last)))
          = rest.filterMap (fun p =>
            match mapFind? t.map p.1 with
            | none => none
            | some e0 =>
              if e0.last = p.2.init then none
              else some ((⟨p.1, p.2.epoch⟩ : HandleId), (e0.last, p.2.last))) := by
        apply List.filterMap_congr
        intro p hp
        have hpj : p.1 ≠ j := by
          intro h
          exact hjr (h ▸ List.mem_map_of_mem Prod.fst hp)
        have : mapFind? (mapInsert t.map j nw) p.1 = mapFind? t.map p.1 :=
          mapFind?_mapInsert_ne _ _ _ _ hpj
        rw [show mapFind? (Tracker.mk (mapInsert t.map j nw)).map p.1
            = mapFind? (mapInsert t.map j nw) p.1 from rfl, this]
      refine ⟨ts, t', ?_, ?_, ?_, ?_, ?_⟩
      · simp only [consumeByReplaceAux, hf]
        exact hrun
      · intro i hnone
        by_cases hij : j = i
        · exfalso
          rw [show mapFind? ((j, nw) :: rest) i = if j = i then some nw
              else mapFind? rest i from rfl, if_pos hij] at hnone
          exact Option.noConfusion hnone
        · have hrn : mapFind? rest i = none := by
            rw [show mapFind? ((j, nw) :: rest) i = if j = i then some nw
                else mapFind? rest i from rfl, if_neg hij] at hnone
            exact hnone
          exact (hA i hrn).trans
            (mapFind?_mapInsert_ne _ _ _ _ (fun h => hij h.symm))
      · intro i nwi hsome hnone
        by_cases hij : j = i
        · subst hij
          have hnwi : nwi = nw := by
            rw [show mapFind? ((j, nw) :: rest) j = if j = j then some nw
                else mapFind? rest j from rfl, if_pos rfl] at hsome
            exact (Option.some.inj hsome).symm
          subst hnwi
          exact (hA j (mapFind?_eq_none_of_not_mem _ _ hjr)).trans
            (mapFind?_mapInsert_self _ _ _)
        · have hsome' : mapFind? rest i = some nwi := by
            rw [show mapFind? ((j, nw) :: rest) i = if j = i then some nw
                else mapFind? rest i from rfl, if_neg hij] at hsome
            exact hsome
          have hnone1 : mapFind? (Tracker.mk (mapInsert t.map j nw)).map i
              = none := by
            show mapFind? (mapInsert t.map j nw) i = none
            rw [mapFind?_mapInsert_ne _ _ _ _ (fun h => hij h.symm)]
            exact hnone
          exact hB i nwi hsome' hnone1
      · intro i nwi e0 hsome hsome2
        by_cases hij : j = i
        · subst hij
          rw [hf] at hsome2
          exact Option.noConfusion hsome2
        · have hsome' : mapFind? rest i = some nwi := by
            rw [show mapFind? ((j, nw) :: rest) i = if j = i then some nw
                else mapFind? rest i from rfl, if_neg hij] at hsome
            exact hsome
          have h2 : mapFind? (Tracker.mk (mapInsert t.map j nw)).map i
              = some e0 := by
            show mapFind? (mapInsert t.map j nw) i = some e0
            rw [mapFind?_mapInsert_ne _ _ _ _ (fun h => hij h.symm)]
            exact hsome2
          exact hC i nwi e0 hsome' h2
      · rw [hts, hcong]
        simp [List.filterMap_cons, hf]
    · -- present in both: swap last, emit transition iff old ≠ other.init
      have hepj : e.epoch = nw.epoch := hep j nw e (List.mem_cons_self _ _) hf
      have hep1 : ∀ i nwi e0, (i, nwi) ∈ rest →
          mapFind? (Tracker.mk
            (mapInsert t.map j { e with last := nw.last })).map i = some e0 →
          e0.epoch = nwi.epoch := by
        intro i nwi e0 hmem hfind
        have hij : i ≠ j := by
          intro h
          exact hjr (h ▸ List.mem_map_of_mem Prod.fst hmem)
        have hfind2 : mapFind? (mapInsert t.map j { e with last := nw.last }) i
            = some e0 := hfind
        rw [mapFind?_mapInsert_ne _ _ _ _ hij] at hfind2
        exact hep i nwi e0 (List.mem_cons_of_mem _ hmem) hfind2
      obtain ⟨ts, t', hrun, hA, hB, hC, hts⟩ :=
        ih ⟨mapInsert t.map j { e with last := nw.last }⟩ hndr hep1
      have hcong : rest.filterMap (fun p =>
            match mapFind? (Tracker.mk
              (mapInsert t.map j { e with last := nw.last })).map p.1 with
            | none => none
            | some e0 =>
              if e0.last = p.2.init then none
              else some ((⟨p.1, p.2.epoch⟩ : HandleId), (e0.last, p.2.last)))
          = rest.filterMap (fun p =>
            match mapFind? t.map p.1 with
            | none => none
            | some e0 =>
              if e0.last = p.2.init then none
              else some ((⟨p.1, p.2.epoch⟩ : HandleId), (e0.last, p.2.last))) := by
        apply List.filterMap_congr
        intro p hp
        have hpj : p.1 ≠ j := by
          intro h
          exact hjr (h ▸ List.mem_map_of_mem Prod.fst hp)
        have heqf : mapFind? (mapInsert t.map j { e with last := nw.last }) p.1
            = mapFind? t.map p.1 := mapFind?_mapInsert_ne _ _ _ _ hpj
        rw [show mapFind? (Tracker.mk
            (mapInsert t.map j { e with last := nw.last })).map p.1
            = mapFind? (mapInsert t.map j { e with last := nw.last }) p.1
            from rfl, heqf]
      have hAme : ∀ i, mapFind? ((j, nw) :: rest) i = none →
          mapFind? t'.map i = mapFind? t.map i := by
        intro i hnone
        by_cases hij : j = i
        · exfalso
          rw [show mapFind? ((j, nw) :: rest) i = if j = i then some nw
              else mapFind? rest i from rfl, if_pos hij] at hnone
          exact Option.noConfusion hnone
        · have hrn : mapFind? rest i = none := by
            rw [show mapFind? ((j, nw) :: rest) i = if j = i then some nw
                else mapFind? rest i from rfl, if_neg hij] at hnone
            exact hnone
          exact (hA i hrn).trans
            (mapFind?_mapInsert_ne _ _ _ _ (fun h => hij h.symm))
      have hBme : ∀ i nwi, mapFind? ((j, nw) :: rest) i = some nwi →
          mapFind? t.map i = none → mapFind? t'.map i = some nwi := by
        intro i nwi hsome hnone
        by_cases hij : j = i
        · subst hij
          rw [hf] at hnone
          exact Option.noConfusion hnone
        · have hsome' : mapFind? rest i = some nwi := by
            rw [show mapFind? ((j, nw) :: rest) i = if j = i then some nw
                else mapFind? rest i from rfl, if_neg hij] at hsome
            exact hsome
          have hnone1 : mapFind? (Tracker.mk
              (mapInsert t.map j { e with last := nw.last })).map i = none := by
            show mapFind? (mapInsert t.map j { e with last := nw.last }) i = none
            rw [mapFind?_mapInsert_ne _ _ _ _ (fun h => hij h.symm)]
            exact hnone
          exact hB i nwi hsome' hnone1
      have hCme : ∀ i nwi e0, mapFind? ((j, nw) :: rest) i = some nwi →
          mapFind? t.map i = some e0 →
          mapFind? t'.map i = some { e0 with last := nwi.last } := by
        intro i nwi e0 hsome hsome2
        by_cases hij : j = i
        · subst hij
          have hnwi : nwi = nw := by
            rw [show mapFind? ((j, nw) :: rest) j = if j = j then some nw
                else mapFind? rest j from rfl, if_pos rfl] at hsome
            exact (Option.some.inj hsome).symm
          subst hnwi
          have he0 : e0 = e := by
            rw [hf] at hsome2
            exact (Option.some.inj hsome2).symm
          subst he0
          exact (hA j (mapFind?_eq_none_of_not_mem _ _ hjr)).trans
            (mapFind?_mapInsert_self _ _ _)
        · have hsome' : mapFind? rest i = some nwi := by
            rw [show mapFind? ((j, nw) :: rest) i = if j = i then some nw
                else mapFind? rest i from rfl, if_neg hij] at hsome
            exact hsome
          have h2 : mapFind? (Tracker.mk
              (mapInsert t.map j { e with last := nw.last })).map i
              = some e0 := by
            show mapFind? (mapInsert t.map j { e with last := nw.last }) i
              = some e0
            rw [mapFind?_mapInsert_ne _ _ _ _ (fun h => hij h.symm)]
            exact hsome2
          exact hC i nwi e0 hsome' h2
      by_cases heqi : e.last = nw.init
      · refine ⟨ts, t', ?_, hAme, hBme, hCme, ?_⟩
        · simp only [consumeByReplaceAux, hf, if_pos hepj, if_pos heqi]
          exact hrun
        · rw [hts, hcong]
          simp [List.filterMap_cons, hf, heqi]
      · refine ⟨(⟨j, nw.epoch⟩, e.last, nw.last) :: ts, t', ?_, hAme, hBme,
          hCme, ?_⟩
        · simp only [consumeByReplaceAux, hf, if_pos hepj, if_neg heqi]
          rw [hrun]
          rfl
        · rw [hts, hcong]
          simp [List.filterMap_cons, hf, heqi]

/-- C2: `consume_by_replace` (keys of `other` distinct, generations of
shared slots matching) never returns a hazard; it processes each of
`other`'s entries as follows: a slot absent from `self` gets `other`'s
entry cloned in wholesale with no transition emitted; a slot present in
both has `self`'s last usage set to `other`'s last usage, and a
transition `(handle, old .. other.last)` is emitted exactly when
`self`'s last usage read before the swap differs from `other`'s initial
usage. -/
theorem consume_by_replace_spec {U : Type} [DecidableEq U] (t other : Tracker U)
    (hnd : (other.map.map Prod.fst).Nodup)
    (hep : ∀ i nw e, (i, nw) ∈ other.map → mapFind? t.map i = some e →
      e.epoch = nw.epoch) :
    ∃ ts t', t.consume_by_replace other = some (ts, t') ∧
      (∀ i, mapFind? other.map i = none →
        mapFind? t'.map i = mapFind? t.map i) ∧
      (∀ i nw, mapFind? other.map i = some nw → mapFind? t.map i = none →
        mapFind? t'.map i = some nw) ∧
      (∀ i nw e, mapFind? other.map i = some nw → mapFind? t.map i = some e →
        mapFind? t'.map i = some { e with last := nw.last }) ∧
      ts = other.map.filterMap (fun p =>
        match mapFind? t.map p.1 with
        | none => none
        | some e =>
          if e.last = p.2.init then none
          else some ((⟨p.1, p.2.epoch⟩ : HandleId), (e.last, p.2.last))) :=
  consumeByReplaceAux_spec other.map t hnd hep

theorem consume_by_replace_spec_witness :
    ∃ ts t', Tracker.consume_by_replace (U := Nat) ⟨[(0, ⟨7, 1, 1, 5⟩)]⟩
        ⟨[(0, ⟨9, 2, 3, 5⟩), (1, ⟨4, 8, 8, 3⟩)]⟩ = some (ts, t') ∧
      mapFind? t'.map 0 = some ⟨7, 1, 3, 5⟩ ∧
      mapFind? t'.map 1 = some ⟨4, 8, 8, 3⟩ ∧
      ts = [(⟨0, 5⟩, 1, 3)] := by
  obtain ⟨ts, t', hrun, hA, hB, hC, hts⟩ :=
    consume_by_replace_spec (U := Nat) ⟨[(0, ⟨7, 1, 1, 5⟩)]⟩
      ⟨[(0, ⟨9, 2, 3, 5⟩), (1, ⟨4, 8, 8, 3⟩)]⟩ (by decide)
      (by
        intro i nw e hmem hfind
        cases hmem with
        | head =>
          have h0 : mapFind? (Tracker.mk (U := Nat)
              [(0, ⟨7, 1, 1, 5⟩)]).map 0 = some ⟨7, 1, 1, 5⟩ := rfl
          rw [h0] at hfind
          injection hfind with h2
          rw [← h2]
        | tail _ hmem2 =>
          cases hmem2 with
          | head =>
            have h1 : mapFind? (Tracker.mk (U := Nat)
                [(0, ⟨7, 1, 1, 5⟩)]).map 1 = none := rfl
            rw [h1] at hfind
            exact Option.noConfusion hfind
          | tail _ h3 => cases h3)
  refine ⟨ts, t', hrun, ?_, ?_, ?_⟩
  · exact hC 0 ⟨9, 2, 3, 5⟩ ⟨7, 1, 1, 5⟩ (by decide) (by decide)
  · exact hB 1 ⟨4, 8, 8, 3⟩ (by decide) (by decide)
  · rw [hts]
    rfl

/-- `consumeByExtendAux` over an appended list: the second half runs on
the first half's resulting tracker, and a hazard or panic in the first
half short-circuits. -/
theorem consumeByExtendAux_append {U : Type} [DecidableEq U] (ops : UsageOps U)
    (xs ys : List (Nat × Track U)) :
    ∀ t : Tracker U, consumeByExtendAux ops (xs ++ ys) t =
      match consumeByExtendAux ops xs t with
      | none => none
      | some (some h, t') => some (some h, t')
      | some (none, t') => consumeByExtendAux ops ys t' := by
  induction xs with
  | nil =>
    intro t
    simp [consumeByExtendAux]
  | cons hd rest ih =>
    intro t
    obtain ⟨j, nw⟩ := hd
    rcases hf : mapFind? t.map j with _ | e
    · simp only [List.cons_append, consumeByExtendAux, hf]
      exact ih _
    · by_cases hep : e.epoch = nw.epoch
      · by_cases heq2 : e.last = nw.last
        · simp only [List.cons_append, consumeByExtendAux, hf, if_pos hep,
            if_pos heq2]
          exact ih t
        · by_cases hx : ops.is_exclusive (ops.bor e.last nw.last) = true
          · simp only [List.cons_append, consumeByExtendAux, hf, if_pos hep,
              if_neg heq2, if_pos hx]
          · simp only [List.cons_append, consumeByExtendAux, hf, if_pos hep,
              if_neg heq2, if_neg hx]
            exact ih _
      · simp only [List.cons_append, consumeByExtendAux, hf, if_neg hep]

/-- Extensional description of a fully successful `consumeByExtendAux`
run: absent slots are cloned, shared slots (distinct keys, matching
epochs, non-exclusive unions) are OR-merged. -/
theorem consumeByExtendAux_success_spec {U : Type} [DecidableEq U]
    (ops : UsageOps U) (l : List (Nat × Track U)) :
    ∀ t : Tracker U,
      (l.map Prod.fst).Nodup →
      (∀ i nw e, (i, nw) ∈ l → mapFind? t.map i = some e → e.epoch = nw.epoch) →
      (∀ i nw e, (i, nw) ∈ l → mapFind? t.map i = some e → e.last ≠ nw.last →
        ops.is_exclusive (ops.bor e.last nw.last) = false) →
      ∃ t', consumeByExtendAux ops l t = some (none, t') ∧
        (∀ i, mapFind? l i = none → mapFind? t'.map i = mapFind? t.map i) ∧
        (∀ i nw, mapFind? l i = some nw → mapFind? t.map i = none →
          mapFind? t'.map i = some nw) ∧
        (∀ i nw e, mapFind? l i = some nw → mapFind? t.map i = some e →
          mapFind? t'.map i = some { e with last :=
            if e.last = nw.last then e.last else ops.bor e.last nw.last }) := by
  induction l with
  | nil =>
    intro t _ _ _
    refine ⟨t, rfl, fun i _ => rfl, ?_, ?_⟩
    · intro i nw h
      exact absurd h (by simp [mapFind?])
    · intro i nw e h
      exact absurd h (by simp [mapFind?])
  | cons hd rest ih =>
    intro t hnd hep hmrg
    obtain ⟨j, nw⟩ := hd
    have hnd2 : (j :: rest.map Prod.fst).Nodup := by
      simpa only [List.map_cons] using hnd
    have hjr : j ∉ rest.map Prod.fst := (List.nodup_cons.mp hnd2).1
    have hndr : (rest.map Prod.fst).Nodup := (List.nodup_cons.mp hnd2).2
    rcases hf : mapFind? t.map j with _ | e
    · -- vacant in self: clone the entry
      have hep1 : ∀ i nwi e0, (i, nwi) ∈ rest →
          mapFind? (Tracker.mk (mapInsert t.map j nw)).map i = some e0 →
          e0.epoch = nwi.epoch := by
        intro i nwi e0 hmem hfind
        have hij : i ≠ j := by
          intro h
          exact hjr (h ▸ List.mem_map_of_mem Prod.fst hmem)
        have hfind2 : mapFind? (mapInsert t.map j nw) i = some e0 := hfind
        rw [mapFind?_mapInsert_ne _ _ _ _ hij] at hfind2
        exact hep i nwi e0 (List.mem_cons_of_mem _ hmem) hfind2
      have hmrg1 : ∀ i nwi e0, (i, nwi) ∈ rest →
          mapFind? (Tracker.mk (mapInsert t.map j nw)).map i = some e0 →
          e0.last ≠ nwi.last →
          ops.is_exclusive (ops.bor e0.last nwi.last) = false := by
        intro i nwi e0 hmem hfind hne
        have hij : i ≠ j := by
          intro h
          exact hjr (h ▸ List.mem_map_of_mem Prod.fst hmem)
        have hfind2 : mapFind? (mapInsert t.map j nw) i = some e0 := hfind
        rw [mapFind?_mapInsert_ne _ _ _ _ hij] at hfind2
        exact hmrg i nwi e0 (List.mem_cons_of_mem _ hmem) hfind2 hne
      obtain ⟨t', hrun, hA, hB, hC⟩ := ih ⟨mapInsert t.map j nw⟩ hndr hep1 hmrg1
      refine ⟨t', ?_, ?_, ?_, ?_⟩
      · simp only [consumeByExtendAux, hf]
        exact hrun
      · intro i hnone
        by_cases hij : j = i
        · exfalso
          rw [show mapFind? ((j, nw) :: rest) i = if j = i then some nw
              else mapFind? rest i from rfl, if_pos hij] at hnone
          exact Option.noConfusion hnone
        · have hrn : mapFind? rest i = none := by
            rw [show mapFind? ((j, nw) :: rest) i = if j = i then some nw
                else mapFind? rest i from rfl, if_neg hij] at hnone
            exact hnone
          exact (hA i hrn).trans
            (mapFind?_mapInsert_ne _ _ _ _ (fun h => hij h.symm))
      · intro i nwi hsome hnone
        by_cases hij : j = i
        · subst hij
          have hnwi : nwi = nw := by
            rw [show mapFind? ((j, nw) :: rest) j = if j = j then some nw
                else mapFind? rest j from rfl, if_pos rfl] at hsome
            exact (Option.some.inj hsome).symm
          subst hnwi
          exact (hA j (mapFind?_eq_none_of_not_mem _ _ hjr)).trans
            (mapFind?_mapInsert_self _ _ _)
        · have hsome' : mapFind? rest i = some nwi := by
            rw [show mapFind? ((j, nw) :: rest) i = if j = i then some nw
                else mapFind? rest i from rfl, if_neg hij] at hsome
            exact hsome
          have hnone1 : mapFind? (Tracker.mk (mapInsert t.map j nw)).map i
              = none := by
            show mapFind? (mapInsert t.map j nw) i = none
            rw [mapFind?_mapInsert_ne _ _ _ _ (fun h => hij h.symm)]
            exact hnone
          exact hB i nwi hsome' hnone1
      · intro i nwi e0 hsome hsome2
        by_cases hij : j = i
        · subst hij
          rw [hf] at hsome2
          exact Option.noConfusion hsome2
        · have hsome' : mapFind? rest i = some nwi := by
            rw [show mapFind? ((j, nw) :: rest) i = if j = i then some nw
                else mapFind? rest i from rfl, if_neg hij] at hsome
            exact hsome
          have h2 : mapFind? (Tracker.mk (mapInsert t.map j nw)).map i
              = some e0 := by
            show mapFind? (mapInsert t.map j nw) i = some e0
            rw [mapFind?_mapInsert_ne _ _ _ _ (fun h => hij h.symm)]
            exact hsome2
          exact hC i nwi e0 hsome' h2
    · -- present in both: merge or skip
      have hepj : e.epoch = nw.epoch := hep j nw e (List.mem_cons_self _ _) hf
      by_cases heq2 : e.last = nw.last
      · -- equal lasts: no mutation for this entry
        have hep1 : ∀ i nwi e0, (i, nwi) ∈ rest →
            mapFind? t.map i = some e0 → e0.epoch = nwi.epoch :=
          fun i nwi e0 hmem hfind =>
            hep i nwi e0 (List.mem_cons_of_mem _ hmem) hfind
        have hmrg1 : ∀ i nwi e0, (i, nwi) ∈ rest →
            mapFind? t.map i = some e0 → e0.last ≠ nwi.last →
            ops.is_exclusive (ops.bor e0.last nwi.last) = false :=
          fun i nwi e0 hmem hfind hne =>
            hmrg i nwi e0 (List.mem_cons_of_mem _ hmem) hfind hne
        obtain ⟨t', hrun, hA, hB, hC⟩ := ih t hndr hep1 hmrg1
        refine ⟨t', ?_, ?_, ?_, ?_⟩
        · simp only [consumeByExtendAux, hf, if_pos hepj, if_pos heq2]
          exact hrun
        · intro i hnone
          by_cases hij : j = i
          · exfalso
            rw [show mapFind? ((j, nw) :: rest) i = if j = i then some nw
                else mapFind? rest i from rfl, if_pos hij] at hnone
            exact Option.noConfusion hnone
          · have hrn : mapFind? rest i = none := by
              rw [show mapFind? ((j, nw) :: rest) i = if j = i then some nw
                  else mapFind? rest i from rfl, if_neg hij] at hnone
              exact hnone
            exact hA i hrn
        · intro i nwi hsome hnone
          by_cases hij : j = i
          · subst hij
            rw [hf] at hnone
            exact Option.noConfusion hnone
          · have hsome' : mapFind? rest i = some nwi := by
              rw [show mapFind? ((j, nw) :: rest) i = if j = i then some nw
                  else mapFind? rest i from rfl, if_neg hij] at hsome
              exact hsome
            exact hB i nwi hsome' hnone
        · intro i nwi e0 hsome hsome2
          by_cases hij : j = i
          · subst hij
            have hnwi : nwi = nw := by
              rw [show mapFind? ((j, nw) :: rest) j = if j = j then some nw
                  else mapFind? rest j from rfl, if_pos rfl] at hsome
              exact (Option.some.inj hsome).symm
            subst hnwi
            have he0 : e0 = e := by
              rw [hf] at hsome2
              exact (Option.some.inj hsome2).symm
            subst he0
            have hgoal : mapFind? t'.map j = mapFind? t.map j :=
              hA j (mapFind?_eq_none_of_not_mem _ _ hjr)
            rw [hgoal, hf, if_pos heq2]
          · have hsome' : mapFind? rest i = some nwi := by
              rw [show mapFind? ((j, nw) :: rest) i = if j = i then some nw
                  else mapFind? rest i from rfl, if_neg hij] at hsome
              exact hsome
            exact hC i nwi e0 hsome' hsome2
      · -- differing lasts: non-exclusive union is committed
        have hxf : ops.is_exclusive (ops.bor e.last nw.last) = false :=
          hmrg j nw e (List.mem_cons_self _ _) hf heq2
        have hep1 : ∀ i nwi e0, (i, nwi) ∈ rest →
            mapFind? (Tracker.mk (mapInsert t.map j
              { e with last := ops.bor e.last nw.last })).map i = some e0 →
            e0.epoch = nwi.epoch := by
          intro i nwi e0 hmem hfind
          have hij : i ≠ j := by
            intro h
            exact hjr (h ▸ List.mem_map_of_mem Prod.fst hmem)
          have hfind2 : mapFind? (mapInsert t.map j
              { e with last := ops.bor e.last nw.last }) i = some e0 := hfind
          rw [mapFind?_mapInsert_ne _ _ _ _ hij] at hfind2
          exact hep i nwi e0 (List.mem_cons_of_mem _ hmem) hfind2
        have hmrg1 : ∀ i nwi e0, (i, nwi) ∈ rest →
            mapFind? (Tracker.mk (mapInsert t.map j
              { e with last := ops.bor e.last nw.last })).map i = some e0 →
            e0.last ≠ nwi.last →
            ops.is_exclusive (ops.bor e0.last nwi.last) = false := by
          intro i nwi e0 hmem hfind hne
          have hij : i ≠ j := by
            intro h
            exact hjr (h ▸ List.mem_map_of_mem Prod.fst hmem)
          have hfind2 : mapFind? (mapInsert t.map j
              { e with last := ops.bor e.last nw.last }) i = some e0 := hfind
          rw [mapFind?_mapInsert_ne _ _ _ _ hij] at hfind2
          exact hmrg i nwi e0 (List.mem_cons_of_mem _ hmem) hfind2 hne
        obtain ⟨t', hrun, hA, hB, hC⟩ :=
          ih ⟨mapInsert t.map j { e with last := ops.bor e.last nw.last }⟩
            hndr hep1 hmrg1
        refine ⟨t', ?_, ?_, ?_, ?_⟩
        · simp only [consumeByExtendAux, hf, if_pos hepj, if_neg heq2, hxf,
            Bool.false_eq_true, if_false]
          exact hrun
        · intro i hnone
          by_cases hij : j = i
          · exfalso
            rw [show mapFind? ((j, nw) :: rest) i = if j = i then some nw
                else mapFind? rest i from rfl, if_pos hij] at hnone
            exact Option.noConfusion hnone
          · have hrn : mapFind? rest i = none := by
              rw [show mapFind? ((j, nw) :: rest) i = if j = i then some nw
                  else mapFind? rest i from rfl, if_neg hij] at hnone
              exact hnone
            exact (hA i hrn).trans
              (mapFind?_mapInsert_ne _ _ _ _ (fun h => hij h.symm))
        · intro i nwi hsome hnone
          by_cases hij : j = i
          · subst hij
            rw [hf] at hnone
            exact Option.noConfusion hnone
          · have hsome' : mapFind? rest i = some nwi := by
              rw [show mapFind? ((j, nw) :: rest) i = if j = i then some nw
                  else mapFind? rest i from rfl, if_neg hij] at hsome
              exact hsome
            have hnone1 : mapFind? (Tracker.mk (mapInsert t.map j
                { e with last := ops.bor e.last nw.last })).map i = none := by
              show mapFind? (mapInsert t.map j
                { e with last := ops.bor e.last nw.last }) i = none
              rw [mapFind?_mapInsert_ne _ _ _ _ (fun h => hij h.symm)]
              exact hnone
            exact hB i nwi hsome' hnone1
        · intro i nwi e0 hsome hsome2
          by_cases hij : j = i
          · subst hij
            have hnwi : nwi = nw := by
              rw [show mapFind? ((j, nw) :: rest) j = if j = j then some nw
                  else mapFind? rest j from rfl, if_pos rfl] at hsome
              exact (Option.some.inj hsome).symm
            subst hnwi
            have he0 : e0 = e := by
              rw [hf] at hsome2
              exact (Option.some.inj hsome2).symm
            subst he0
            have hgoal := (hA j (mapFind?_eq_none_of_not_mem _ _ hjr)).trans
              (mapFind?_mapInsert_self _ _ _)
            rw [hgoal, if_neg heq2]
          · have hsome' : mapFind? rest i = some nwi := by
              rw [show mapFind? ((j, nw) :: rest) i = if j = i then some nw
                  else mapFind? rest i from rfl, if_neg hij] at hsome
              exact hsome
            have h2 : mapFind? (Tracker.mk (mapInsert t.map j
                { e with last := ops.bor e.last nw.last })).map i
                = some e0 := by
              show mapFind? (mapInsert t.map j
                { e with last := ops.bor e.last nw.last }) i = some e0
              rw [mapFind?_mapInsert_ne _ _ _ _ (fun h => hij h.symm)]
              exact hsome2
            exact hC i nwi e0 hsome' h2

/-- One conflicting entry makes `consumeByExtendAux` abort at once with
the hazard, returning the tracker it was handed. -/
theorem consumeByExtendAux_conflict_step {U : Type} [DecidableEq U]
    (ops : UsageOps U) (i : Nat) (nw : Track U) (rest : List (Nat × Track U))
    (tp : Tracker U) (e : Track U)
    (hfind : mapFind? tp.map i = some e) (hep : e.epoch = nw.epoch)
    (hne : e.last ≠ nw.last)
    (hx : ops.is_exclusive (ops.bor e.last nw.last) = true) :
    consumeByExtendAux ops ((i, nw) :: rest) tp
      = some (some (⟨i, nw.epoch⟩, e.last, nw.last), tp) := by
  simp [consumeByExtendAux, hfind, hep, hne, hx]

/-- C3: `consume_by_extend` clones absent slots into `self`; for slots
present in both (generations matching) with differing last usages it
commits the OR-union as the new last usage and continues when the union
is non-exclusive; when the union is exclusive it aborts immediately with
a hazard naming that handle and the range `old .. other.last`, returning
the tracker exactly as it stood after the entries processed earlier in
the same call — earlier merges remain, with no transactional rollback. -/
theorem consume_by_extend_spec {U : Type} [DecidableEq U] (ops : UsageOps U) :
    (∀ t other : Tracker U,
      (other.map.map Prod.fst).Nodup →
      (∀ i nw e, (i, nw) ∈ other.map → mapFind? t.map i = some e →
        e.epoch = nw.epoch) →
      (∀ i nw e, (i, nw) ∈ other.map → mapFind? t.map i = some e →
        e.last ≠ nw.last →
        ops.is_exclusive (ops.bor e.last nw.last) = false) →
      ∃ t', Tracker.consume_by_extend ops t other = some (none, t') ∧
        (∀ i, mapFind? other.map i = none →
          mapFind? t'.map i = mapFind? t.map i) ∧
        (∀ i nw, mapFind? other.map i = some nw → mapFind? t.map i = none →
          mapFind? t'.map i = some nw) ∧
        (∀ i nw e, mapFind? other.map i = some nw → mapFind? t.map i = some e →
          mapFind? t'.map i = some { e with last :=
            if e.last = nw.last then e.last else ops.bor e.last nw.last })) ∧
    (∀ (pre rest : List (Nat × Track U)) (i : Nat) (nw : Track U)
      (t tp : Tracker U) (e : Track U),
      consumeByExtendAux ops pre t = some (none, tp) →
      mapFind? tp.map i = some e → e.epoch = nw.epoch → e.last ≠ nw.last →
      ops.is_exclusive (ops.bor e.last nw.last) = true →
      Tracker.consume_by_extend ops t ⟨pre ++ (i, nw) :: rest⟩
        = some (some (⟨i, nw.epoch⟩, e.last, nw.last), tp)) := by
  constructor
  · intro t other hnd hep hmrg
    exact consumeByExtendAux_success_spec ops other.map t hnd hep hmrg
  · intro pre rest i nw t tp e hpre hfind hep hne hx
    rw [show Tracker.consume_by_extend ops t ⟨pre ++ (i, nw) :: rest⟩
        = consumeByExtendAux ops (pre ++ (i, nw) :: rest) t from rfl,
      consumeByExtendAux_append ops pre ((i, nw) :: rest) t, hpre]
    exact consumeByExtendAux_conflict_step ops i nw rest tp e hfind hep hne hx

theorem consume_by_extend_spec_witness :
    (∃ t', Tracker.consume_by_extend (U := Nat) (bitmaskOps 4)
        ⟨[(0, ⟨7, 1, 1, 5⟩)]⟩ ⟨[(0, ⟨8, 1, 2, 5⟩)]⟩ = some (none, t') ∧
      mapFind? t'.map 0 = some ⟨7, 1, 3, 5⟩) ∧
    Tracker.consume_by_extend (U := Nat) (bitmaskOps 4) ⟨[(0, ⟨7, 1, 1, 5⟩)]⟩
        ⟨[(1, ⟨4, 8, 8, 3⟩)] ++ (0, ⟨9, 2, 4, 5⟩) :: []⟩
      = some (some (⟨0, 5⟩, 1, 4), ⟨[(0, ⟨7, 1, 1, 5⟩), (1, ⟨4, 8, 8, 3⟩)]⟩) := by
  constructor
  · obtain ⟨t', hrun, hA, hB, hC⟩ :=
      (consume_by_extend_spec (U := Nat) (bitmaskOps 4)).1
        ⟨[(0, ⟨7, 1, 1, 5⟩)]⟩ ⟨[(0, ⟨8, 1, 2, 5⟩)]⟩ (by decide)
        (by
          intro i nw e hmem hfind
          cases hmem with
          | head =>
            have h0 : mapFind? (Tracker.mk (U := Nat)
                [(0, ⟨7, 1, 1, 5⟩)]).map 0 = some ⟨7, 1, 1, 5⟩ := rfl
            rw [h0] at hfind
            injection hfind with h2
            rw [← h2]
          | tail _ h3 => cases h3)
        (by
          intro i nw e hmem hfind hne
          cases hmem with
          | head =>
            have h0 : mapFind? (Tracker.mk (U := Nat)
                [(0, ⟨7, 1, 1, 5⟩)]).map 0 = some ⟨7, 1, 1, 5⟩ := rfl
            rw [h0] at hfind
            injection hfind with h2
            rw [← h2]
            decide
          | tail _ h3 => cases h3)
    exact ⟨t', hrun, hC 0 ⟨8, 1, 2, 5⟩ ⟨7, 1, 1, 5⟩ (by decide) (by decide)⟩
  · exact (consume_by_extend_spec (U := Nat) (bitmaskOps 4)).2
      [(1, ⟨4, 8, 8, 3⟩)] [] 0 ⟨9, 2, 4, 5⟩ ⟨[(0, ⟨7, 1, 1, 5⟩)]⟩
      ⟨[(0, ⟨7, 1, 1, 5⟩), (1, ⟨4, 8, 8, 3⟩)]⟩ ⟨7, 1, 1, 5⟩
      (by decide) (by decide) (by decide) (by decide) (by decide)

end Wgpu
